import Mathlib

/-!
Verification development for the `caddy-s3-proxy` HTTP handler (`s3proxy.go`).

The development shallowly embeds the handler's logic:
  * the Go standard library `path.Clean` / `path.Join` functions (lexical
    path normalisation), used by `joinPath` and the key-building steps;
  * SHA-1 over the UTF-8 bytes of the raw query string (`convertSha1`);
  * the HTTP date parsing/formatting used for the conditional headers
    (`time.Parse(http.TimeFormat, _)`, faithful to the layout
    `Mon, 02 Jan 2006 15:04:05 GMT`);
  * the request dispatcher `ServeHTTP`, key building and `GetHandler`,
    the fetch classification `getS3Object`, and the response
    reconstruction `writeResponseFromGetObject`, with the response
    writer modelled as a trace of write events and the S3 client
    modelled as a function from the request input to a result.
-/

/-! ## Model of the Go `path` package (`path.Clean`, `path.Join`) -/

/-- Splitting helper: `splitSlashA l = (e, rest)` where `e` is the chunk of
`l` before the first `'/'` and `rest` the list of remaining chunks. -/
def splitSlashA : List Char → List Char × List (List Char)
  | [] => ([], [])
  | c :: cs =>
    let p := splitSlashA cs
    if c = '/' then ([], p.1 :: p.2) else (c :: p.1, p.2)

/-- Split a character list on `'/'` (like `strings.Split(s, "/")`): the
chunks between separators, empty chunks included. Always non-empty. -/
def splitSlash (l : List Char) : List (List Char) :=
  (splitSlashA l).1 :: (splitSlashA l).2

/-- The `..` path element. -/
def dotdot : List Char := ['.', '.']

/-- One step of the `path.Clean` element loop (Go `path/path.go`), acting on
the stack of output segments (most recent first): empty and `.` elements are
dropped; `..` pops a real segment, is dropped at the root, and is kept when
there is nothing to pop in a relative path; any other element is pushed. -/
def pushElem (rooted : Bool) (st : List (List Char)) (e : List Char) : List (List Char) :=
  if e = [] ∨ e = ['.'] then st
  else if e = dotdot then
    match st with
    | [] => if rooted then [] else [dotdot]
    | top :: rest => if top = dotdot then dotdot :: top :: rest else rest
  else e :: st

/-- Process all elements of a path through `pushElem`, starting from the
empty stack. -/
def cleanStackOf (rooted : Bool) (elems : List (List Char)) : List (List Char) :=
  elems.foldl (pushElem rooted) []

/-- Join segments with `'/'` separators (like `strings.Join(_, "/")`). -/
def joinSegs : List (List Char) → List Char
  | [] => []
  | [e] => e
  | e :: f :: rest => e ++ '/' :: joinSegs (f :: rest)

/-- Print the cleaned segment stack back to a path, with a leading `'/'`
when rooted, and `.` for the empty result — the tail of Go's `path.Clean`. -/
def renderStack (rooted : Bool) (st : List (List Char)) : List Char :=
  let out := (if rooted then ['/'] else []) ++ joinSegs st.reverse
  if out = [] then ['.'] else out

/-- Whether a path begins with the separator (Go: `path[0] == '/'`). -/
def isRooted : List Char → Bool
  | [] => false
  | c :: _ => c = '/'

/-- Go's `path.Clean` on character lists: shortest lexically-equivalent
path (collapse separators, drop `.`, resolve `..`, `.` for empty). -/
def cleanChars (s : List Char) : List Char :=
  if s = [] then ['.']
  else renderStack (isRooted s) (cleanStackOf (isRooted s) (splitSlash s))

/-- Go's `path.Clean` on strings. -/
def cleanPath (s : String) : String := String.mk (cleanChars s.data)

/-- Model of `strings.Join` (as used by `path.Join`). -/
def joinStrings (sep : String) : List String → String
  | [] => ""
  | [a] => a
  | a :: b :: rest => a ++ sep ++ joinStrings sep (b :: rest)

/-- Go's `path.Join`: drop leading empty elements, join the rest with `/`,
and `Clean` the result; the join of all-empty elements is `""`. -/
def pathJoin (elems : List String) : String :=
  match elems.dropWhile (fun e => e == "") with
  | [] => ""
  | es => cleanPath (joinStrings "/" es)

/-- Model of `strings.HasSuffix`. -/
def hasSuffix (s pat : String) : Bool := pat.data.isSuffixOf s.data

/-! ## SHA-1 (as used by `convertSha1` via `crypto/sha1` + `encoding/hex`) -/

/-- Truncate to a 32-bit word. -/
def w32 (x : Nat) : Nat := x % 4294967296

/-- Rotate a 32-bit word left by `n` (for `x < 2^32`, `n < 32`). -/
def rotl32 (x n : Nat) : Nat := (x * 2 ^ n) % 4294967296 + x / 2 ^ (32 - n)

/-- SHA-1 round function `f_t`. -/
def sha1f (t b c d : Nat) : Nat :=
  if t < 20 then (b &&& c) ||| ((b ^^^ 4294967295) &&& d)
  else if t < 40 then b ^^^ c ^^^ d
  else if t < 60 then (b &&& c) ||| (b &&& d) ||| (c &&& d)
  else b ^^^ c ^^^ d

/-- SHA-1 round constant `K_t`. -/
def sha1k (t : Nat) : Nat :=
  if t < 20 then 0x5A827999
  else if t < 40 then 0x6ED9EBA1
  else if t < 60 then 0x8F1BBCDC
  else 0xCA62C1D6

/-- Big-endian bytes-to-words (4 bytes per 32-bit word). -/
def toWords : List Nat → List Nat
  | b0 :: b1 :: b2 :: b3 :: rest =>
    (b0 * 16777216 + b1 * 65536 + b2 * 256 + b3) :: toWords rest
  | _ => []

/-- Extend the 16 message words to 80, kept most-recent-first. -/
def sha1ExtendRev : Nat → List Nat → List Nat
  | 0, rev => rev
  | c + 1, rev =>
    sha1ExtendRev c
      (rotl32 ((rev.getD 2 0) ^^^ (rev.getD 7 0) ^^^ (rev.getD 13 0) ^^^ (rev.getD 15 0)) 1 :: rev)

/-- The 80 SHA-1 rounds. -/
def sha1Rounds : List Nat → Nat → Nat × Nat × Nat × Nat × Nat → Nat × Nat × Nat × Nat × Nat
  | [], _, st => st
  | wt :: ws, t, (a, b, c, d, e) =>
    let temp := w32 (rotl32 a 5 + sha1f t b c d + e + sha1k t + wt)
    sha1Rounds ws (t + 1) (temp, a, rotl32 b 30, c, d)

/-- Compress one 64-byte block into the running state. -/
def sha1Compress (st : Nat × Nat × Nat × Nat × Nat) (block : List Nat) :
    Nat × Nat × Nat × Nat × Nat :=
  let sched := (sha1ExtendRev 64 (toWords block).reverse).reverse
  match st, sha1Rounds sched 0 st with
  | (h0, h1, h2, h3, h4), (a, b, c, d, e) =>
    (w32 (h0 + a), w32 (h1 + b), w32 (h2 + c), w32 (h3 + d), w32 (h4 + e))

/-- Cut a byte list into 64-byte blocks (structural recursion on a fuel
bound so the definition reduces in the kernel; `fuel = l.length` is always
enough since every step drops 64 > 0 bytes). -/
def chunksAux : Nat → List Nat → List (List Nat)
  | 0, _ => []
  | fuel + 1, l => if l = [] then [] else l.take 64 :: chunksAux fuel (l.drop 64)

/-- Cut a byte list into 64-byte blocks. -/
def chunks64 (l : List Nat) : List (List Nat) := chunksAux l.length l

/-- The `n` big-endian bytes of `v`. -/
def beBytes (n v : Nat) : List Nat :=
  (List.range n).map (fun i => v / 2 ^ (8 * (n - 1 - i)) % 256)

/-- SHA-1 of a byte list: pad to a multiple of 64 bytes (`0x80`, zeros, and
the 64-bit big-endian bit length), then compress each block. -/
def sha1 (msg : List Nat) : List Nat :=
  let padded :=
    msg ++ 128 :: List.replicate ((119 - msg.length % 64) % 64) 0 ++ beBytes 8 (8 * msg.length)
  let hh := (chunks64 padded).foldl sha1Compress
    (0x67452301, 0xEFCDAB89, 0x98BADCFE, 0x10325476, 0xC3D2E1F0)
  beBytes 4 hh.1 ++ beBytes 4 hh.2.1 ++ beBytes 4 hh.2.2.1 ++
    beBytes 4 hh.2.2.2.1 ++ beBytes 4 hh.2.2.2.2

/-- Lowercase hexadecimal digit. -/
def hexDigit (n : Nat) : Char :=
  if n < 10 then Char.ofNat (48 + n) else Char.ofNat (87 + n)

/-- Two lowercase hex digits of a byte. -/
def byteHex (b : Nat) : List Char := [hexDigit (b / 16), hexDigit (b % 16)]

/-- Model of `hex.EncodeToString`. -/
def hexEncode (bs : List Nat) : String := String.mk ((bs.map byteHex).flatten)

/-- UTF-8 bytes of one character. -/
def utf8Bytes (c : Char) : List Nat :=
  let n := c.toNat
  if n < 128 then [n]
  else if n < 2048 then [192 + n / 64, 128 + n % 64]
  else if n < 65536 then [224 + n / 4096, 128 + n / 64 % 64, 128 + n % 64]
  else [240 + n / 262144, 128 + n / 4096 % 64, 128 + n / 64 % 64, 128 + n % 64]

/-- UTF-8 bytes of a string (Go `[]byte(s)`). -/
def strBytes (s : String) : List Nat := (s.data.map utf8Bytes).flatten

/-- Model of `convertSha1` (s3proxy.go): lowercase hex SHA-1 digest of a string. -/
def convertSha1 (s : String) : String := hexEncode (sha1 (strBytes s))

/-! ## HTTP dates (`time.Parse(http.TimeFormat, _)` and formatting) -/

/-- A wall-clock time as carried by the model (the parsed components of an
HTTP date; the zone is always GMT/UTC). -/
structure GoTime where
  year : Nat
  month : Nat
  day : Nat
  hour : Nat
  minute : Nat
  second : Nat
deriving DecidableEq, Repr

/-- Go's zero `time.Time` (January 1, year 1, 00:00:00). -/
def goZeroTime : GoTime := ⟨1, 1, 1, 0, 0, 0⟩

/-- Fold ASCII upper case to lower case (Go `time` name lookup is
ASCII-case-insensitive). -/
def lowerChar (c : Char) : Char :=
  if 'A' ≤ c ∧ c ≤ 'Z' then Char.ofNat (c.toNat + 32) else c

/-- ASCII-case-insensitive equality of character lists. -/
def chEqFold (a b : List Char) : Bool := a.map lowerChar == b.map lowerChar

/-- Three-letter weekday names (Go `shortDayNames`). -/
def dayNamesShort : List String := ["Sun", "Mon", "Tue", "Wed", "Thu", "Fri", "Sat"]

/-- Three-letter month names (Go `shortMonthNames`). -/
def monthNamesShort : List String :=
  ["Jan", "Feb", "Mar", "Apr", "May", "Jun", "Jul", "Aug", "Sep", "Oct", "Nov", "Dec"]

/-- ASCII digit test. -/
def isDigitChar (c : Char) : Bool := '0' ≤ c ∧ c ≤ '9'

/-- Value of an ASCII digit. -/
def digitVal (c : Char) : Nat := c.toNat - 48

/-- Parse exactly two digits (Go `getnum` with `fixed = true`, layout `02`). -/
def num2 : List Char → Option (Nat × List Char)
  | c1 :: c2 :: rest =>
    if isDigitChar c1 ∧ isDigitChar c2 then some (digitVal c1 * 10 + digitVal c2, rest) else none
  | _ => none

/-- Parse one or two digits (Go `getnum` with `fixed = false`, layout `15`). -/
def num12 : List Char → Option (Nat × List Char)
  | [] => none
  | [c1] => if isDigitChar c1 then some (digitVal c1, []) else none
  | c1 :: c2 :: rest =>
    if isDigitChar c1 then
      if isDigitChar c2 then some (digitVal c1 * 10 + digitVal c2, rest)
      else some (digitVal c1, c2 :: rest)
    else none

/-- Parse exactly four digits (layout `2006`). -/
def num4 : List Char → Option (Nat × List Char)
  | c1 :: c2 :: c3 :: c4 :: rest =>
    if isDigitChar c1 ∧ isDigitChar c2 ∧ isDigitChar c3 ∧ isDigitChar c4 then
      some (digitVal c1 * 1000 + digitVal c2 * 100 + digitVal c3 * 10 + digitVal c4, rest)
    else none
  | _ => none

/-- Look up a three-letter name case-insensitively (Go `lookup` over the
short weekday/month tables); returns the table index and the rest. -/
def lookupName (names : List String) : List Char → Option (Nat × List Char)
  | c1 :: c2 :: c3 :: rest =>
    match names.findIdx? (fun n => chEqFold n.data [c1, c2, c3]) with
    | some i => some (i, rest)
    | none => none
  | _ => none

/-- Match literal layout text. -/
def expectChars (lit : List Char) (s : List Char) : Option (List Char) :=
  if lit.isPrefixOf s then some (s.drop lit.length) else none

/-- Gregorian leap year (Go `isLeap`). -/
def isLeapYear (y : Nat) : Bool := (y % 4 = 0 ∧ y % 100 ≠ 0) ∨ y % 400 = 0

/-- Days in a month (Go `daysIn`). -/
def daysIn (m y : Nat) : Nat :=
  if m = 2 then (if isLeapYear y then 29 else 28)
  else if m = 4 ∨ m = 6 ∨ m = 9 ∨ m = 11 then 30 else 31

/-- Stage 1 of HTTP date parsing: weekday name, `", "`, two-digit day. -/
def parseHTTPDate1 (s : List Char) : Option (Nat × List Char) :=
  (lookupName dayNamesShort s).bind fun p1 =>
  (expectChars [',', ' '] p1.2).bind fun r2 =>
  num2 r2

/-- Stage 2 of HTTP date parsing: month name and four-digit year. -/
def parseHTTPDate2 (s : List Char) : Option (Nat × Nat × List Char) :=
  (expectChars [' '] s).bind fun r4 =>
  (lookupName monthNamesShort r4).bind fun pMon =>
  (expectChars [' '] pMon.2).bind fun r6 =>
  (num4 r6).bind fun pYear =>
  some (pMon.1, pYear.1, pYear.2)

/-- Stage 3 of HTTP date parsing: `15:04:05` clock fields. -/
def parseHTTPDate3 (s : List Char) : Option (Nat × Nat × Nat × List Char) :=
  (expectChars [' '] s).bind fun r8 =>
  (num12 r8).bind fun pHour =>
  (expectChars [':'] pHour.2).bind fun r10 =>
  (num2 r10).bind fun pMin =>
  (expectChars [':'] pMin.2).bind fun r12 =>
  (num2 r12).bind fun pSec =>
  some (pHour.1, pMin.1, pSec.1, pSec.2)

/-- Model of `time.Parse(http.TimeFormat, s)` — parse an HTTP date in the layout
`Mon, 02 Jan 2006 15:04:05 GMT` (weekday and month names matched
case-insensitively, day/minute/second exactly two digits, hour one or two
digits, year four digits, literal text matched exactly, with Go's range
validation of the clock fields and the day of the month; the weekday is
accepted without consistency checking, as in Go). `none` models a parse
error. -/
def parseHTTPDate (s : String) : Option GoTime :=
  (parseHTTPDate1 s.data).bind fun pDay =>
  (parseHTTPDate2 pDay.2).bind fun pMY =>
  (parseHTTPDate3 pMY.2.2).bind fun pHMS =>
  (expectChars [' ', 'G', 'M', 'T'] pHMS.2.2.2).bind fun r14 =>
  if r14 = [] ∧ pHMS.1 < 24 ∧ pHMS.2.1 < 60 ∧ pHMS.2.2.1 < 60 ∧ 1 ≤ pDay.1 ∧
      pDay.1 ≤ daysIn (pMY.1 + 1) pMY.2.1 then
    some ⟨pMY.2.1, pMY.1 + 1, pDay.1, pHMS.1, pHMS.2.1, pHMS.2.2.1⟩
  else none

/-- Zero-pad to two digits. -/
def pad2 (n : Nat) : String := if n < 10 then "0" ++ toString n else toString n

/-- Zero-pad to four digits. -/
def pad4 (n : Nat) : String :=
  if n < 10 then "000" ++ toString n
  else if n < 100 then "00" ++ toString n
  else if n < 1000 then "0" ++ toString n
  else toString n

/-- Day of the week (0 = Sunday) by Sakamoto's congruence. -/
def dayOfWeek (y m d : Nat) : Nat :=
  let tbl := [0, 3, 2, 5, 0, 3, 5, 1, 4, 6, 2, 4]
  let y2 := if m < 3 then y - 1 else y
  (y2 + y2 / 4 + y2 / 400 + tbl.getD (m - 1) 0 + d + 700 - y2 / 100) % 7

/-- Format a time per `http.TimeFormat` (`value.UTC().Format(http.TimeFormat)`). -/
def formatHTTPDate (t : GoTime) : String :=
  dayNamesShort.getD (dayOfWeek t.year t.month t.day) "Sun" ++ ", " ++
    pad2 t.day ++ " " ++ monthNamesShort.getD (t.month - 1) "Jan" ++ " " ++
    pad4 t.year ++ " " ++ pad2 t.hour ++ ":" ++ pad2 t.minute ++ ":" ++
    pad2 t.second ++ " GMT"

/-! ## Model of the proxy (`s3proxy.go`) -/

/-- The request headers read by the handler. `http.Header.Get` returns `""`
for an absent header, and the code only ever compares against `""`, so a
field value `""` models "absent or empty" exactly as the code sees it. -/
structure ReqHeaders where
  range : String := ""
  ifMatch : String := ""
  ifNoneMatch : String := ""
  ifModifiedSince : String := ""
  ifUnmodifiedSince : String := ""
deriving DecidableEq, Repr

/-- The `s3.GetObjectInput` fields the handler sets (`none` = field left
unset). -/
structure GetObjectInput where
  bucket : String
  key : String
  range : Option String := none
  ifMatch : Option String := none
  ifNoneMatch : Option String := none
  ifModifiedSince : Option GoTime := none
  ifUnmodifiedSince : Option GoTime := none
deriving DecidableEq, Repr

/-- The input-building portion of `getS3Object` (s3proxy.go lines 100–126):
each validator header that is present (non-empty) is copied into the
request; the two date headers are parsed with `time.Parse(http.TimeFormat,
·)` and set only when parsing succeeds. -/
def buildGetObjectInput (bucket key : String) (h : ReqHeaders) : GetObjectInput :=
  let oi : GetObjectInput := { bucket := bucket, key := key }
  let oi := if h.range ≠ "" then { oi with range := some h.range } else oi
  let oi := if h.ifMatch ≠ "" then { oi with ifMatch := some h.ifMatch } else oi
  let oi := if h.ifNoneMatch ≠ "" then { oi with ifNoneMatch := some h.ifNoneMatch } else oi
  let oi :=
    if h.ifModifiedSince ≠ "" then
      match parseHTTPDate h.ifModifiedSince with
      | some t => { oi with ifModifiedSince := some t }
      | none => oi
    else oi
  let oi :=
    if h.ifUnmodifiedSince ≠ "" then
      match parseHTTPDate h.ifUnmodifiedSince with
      | some t => { oi with ifUnmodifiedSince := some t }
      | none => oi
    else oi
  oi

/-- The `s3.GetObjectOutput` fields the handler reads. Pointer-valued
header fields are `Option`s (`none` = nil pointer); `metadata` models the
`map[string]*string` of user metadata as an association list; `body` is the
byte stream (`none` = nil). `contentLength` models `*obj.ContentLength`,
which the code dereferences only on a successful fetch. -/
structure GetObjectOutput where
  contentLength : Int := 0
  cacheControl : Option String := none
  contentDisposition : Option String := none
  contentEncoding : Option String := none
  contentLanguage : Option String := none
  contentRange : Option String := none
  contentType : Option String := none
  etag : Option String := none
  expires : Option String := none
  lastModified : Option GoTime := none
  metadata : List (String × Option String) := []
  body : Option (List Nat) := none
deriving DecidableEq, Repr

/-- The zero `&s3.GetObjectOutput{}` that the AWS SDK returns alongside an
error (its fields are never dereferenced by the handler on error paths). -/
def emptyObject : GetObjectOutput := {}

/-- Result of `p.client.GetObject`: success with an output, an
`awserr.Error` carrying a code, or a plain error. -/
inductive S3Result where
  | ok (obj : GetObjectOutput)
  | awsError (code msg : String)
  | plainError (msg : String)

/-- The `http.ResponseWriter`, modelled as the trace of calls made to it:
`WriteHeader` status codes, `Header().Set` pairs, `Header().Del` keys and
body writes, each list in call order. -/
structure RespWriter where
  statusWrites : List Nat := []
  headerSets : List (String × String) := []
  headerDels : List String := []
  bodyChunks : List (List Nat) := []
deriving DecidableEq, Repr

/-- Event of `w.WriteHeader(code)`. -/
def RespWriter.writeHeader (w : RespWriter) (code : Nat) : RespWriter :=
  { w with statusWrites := w.statusWrites ++ [code] }

/-- Event of `w.Header().Set(k, v)`. -/
def RespWriter.setHeader (w : RespWriter) (k v : String) : RespWriter :=
  { w with headerSets := w.headerSets ++ [(k, v)] }

/-- Event of `w.Header().Del(k)`. -/
def RespWriter.delHeader (w : RespWriter) (k : String) : RespWriter :=
  { w with headerDels := w.headerDels ++ [k] }

/-- Event of `io.Copy(w, body)`: stream the body bytes to the writer. -/
def RespWriter.writeBody (w : RespWriter) (bs : List Nat) : RespWriter :=
  { w with bodyChunks := w.bodyChunks ++ [bs] }

/-- Model of `setStrHeader` (s3proxy.go lines 295–299): set the header only when the
value pointer is non-nil and the value is non-empty. -/
def setStrHeader (w : RespWriter) (key : String) (value : Option String) : RespWriter :=
  match value with
  | some v => if 0 < v.length then w.setHeader key v else w
  | none => w

/-- Model of `setTimeHeader` (s3proxy.go lines 301–305): set the header only when
the time pointer is non-nil and the time is not the zero `time.Time`,
formatted per `http.TimeFormat` in UTC. -/
def setTimeHeader (w : RespWriter) (key : String) (value : Option GoTime) : RespWriter :=
  match value with
  | some t => if t ≠ goZeroTime then w.setHeader key (formatHTTPDate t) else w
  | none => w

/-- Result of `getS3Object`: the writer after any writes, the returned
`*s3.GetObjectOutput`, whether the returned `error` was non-nil, and the
`GetObjectInput` that was sent to the storage client. -/
structure FetchRes where
  w : RespWriter
  obj : GetObjectOutput
  isErr : Bool
  oi : GetObjectInput
deriving Repr

/-- Model of `getS3Object` (s3proxy.go lines 100–192): build the input from the
conditional headers, call the client, and classify the outcome. An
`awserr.Error` with code `"NotModified"` writes status 304 and returns a
nil error (with the SDK's empty output); code `"NoSuchKey"` and every
other error return the error unchanged (only the logging differs); a
success whose `*obj.ContentLength` is zero returns a fresh error. -/
def getS3Object (storage : GetObjectInput → S3Result) (bucket key : String)
    (h : ReqHeaders) (w : RespWriter) : FetchRes :=
  let oi := buildGetObjectInput bucket key h
  match storage oi with
  | S3Result.awsError code _ =>
    if code = "NotModified" then ⟨w.writeHeader 304, emptyObject, false, oi⟩
    else ⟨w, emptyObject, true, oi⟩
  | S3Result.plainError _ => ⟨w, emptyObject, true, oi⟩
  | S3Result.ok obj => if obj.contentLength = 0 then ⟨w, obj, true, oi⟩ else ⟨w, obj, false, oi⟩

/-- Model of `writeResponseFromGetObject` (s3proxy.go lines 205–232): copy the
allow-listed metadata headers, then every user-metadata entry, set the
`X-Cache-S3` marker, and, when a body is present, delete `Content-Length`
and stream the body. Returns the writer and whether an error was returned
(the model's `io.Copy` always succeeds). -/
def writeResponseFromGetObject (w : RespWriter) (obj : GetObjectOutput) : RespWriter × Bool :=
  let w := setStrHeader w "Cache-Control" obj.cacheControl
  let w := setStrHeader w "Content-Disposition" obj.contentDisposition
  let w := setStrHeader w "Content-Encoding" obj.contentEncoding
  let w := setStrHeader w "Content-Language" obj.contentLanguage
  let w := setStrHeader w "Content-Range" obj.contentRange
  let w := setStrHeader w "Content-Type" obj.contentType
  let w := setStrHeader w "ETag" obj.etag
  let w := setStrHeader w "Expires" obj.expires
  let w := setTimeHeader w "Last-Modified" obj.lastModified
  let w := obj.metadata.foldl (fun w kv => setStrHeader w kv.1 kv.2) w
  let w := w.setHeader "X-Cache-S3" "hit"
  match obj.body with
  | some bs => ((w.delHeader "Content-Length").writeBody bs, false)
  | none => (w, false)

/-- Model of `joinPath` (s3proxy.go lines 194–203). The first statement slices
`uriPath[len(uriPath)-1:]`, which panics (slice bounds out of range) when
`uriPath` is empty; `none` models that panic. Otherwise: join with
`path.Join` and restore the trailing separator stripped by `Join`, unless
the joined result is exactly `"/"`. -/
def joinPath (root uriPath : String) : Option String :=
  if uriPath = "" then none
  else
    let isDir := hasSuffix uriPath "/"
    let newPath := pathJoin [root, uriPath]
    some (if isDir = true ∧ newPath ≠ "/" then newPath ++ "/" else newPath)

/-- The key-building steps of `GetHandler` (s3proxy.go lines 270–279):
append `index.html` when `fullPath` has a trailing slash, then put the
SHA-1 of a non-empty raw query in a subdirectory. -/
def buildS3Key (fullPath rawQuery : String) : String :=
  let defaultIndex := "index.html"
  let s3Key := fullPath
  let s3Key := if hasSuffix fullPath "/" then pathJoin [s3Key, defaultIndex] else s3Key
  let s3Key := if 0 < rawQuery.length then pathJoin [s3Key, "/", convertSha1 rawQuery] else s3Key
  s3Key

/-- The object key computed for a GET request: `joinPath` of the resolved
root and URL path (from `ServeHTTP`) followed by the key-building steps of
`GetHandler`; `none` models the `joinPath` panic on an empty URL path. -/
def buildKey (root urlPath rawQuery : String) : Option String :=
  (joinPath root urlPath).map (fun fullPath => buildS3Key fullPath rawQuery)

/-- Trace of one `GetHandler` run: the final writer, whether an error was
returned, the storage calls made (their inputs, in order), and whether
`writeResponseFromGetObject` was invoked. -/
structure TraceGet where
  w : RespWriter
  isErr : Bool
  calls : List GetObjectInput
  reconInvoked : Bool
deriving Repr

/-- Model of `GetHandler` (s3proxy.go lines 267–287): build the key, fetch, return
the error if any, otherwise reconstruct the response from the object. -/
def GetHandler (storage : GetObjectInput → S3Result) (bucket : String) (h : ReqHeaders)
    (rawQuery : String) (w : RespWriter) (fullPath : String) : TraceGet :=
  let s3Key := buildS3Key fullPath rawQuery
  let fr := getS3Object storage bucket s3Key h w
  if fr.isErr then ⟨fr.w, true, [fr.oi], false⟩
  else
    let wr := writeResponseFromGetObject fr.w fr.obj
    ⟨wr.1, wr.2, [fr.oi], true⟩

/-- How one request ends: a response written by this handler (`ServeHTTP`
returns nil), delegation to the next handler, or the `joinPath` panic. -/
inductive Outcome where
  | served
  | delegated
  | panicked
deriving DecidableEq, Repr

/-- An inbound request as read by the handler. -/
structure Request where
  method : String
  urlPath : String
  rawQuery : String
  headers : ReqHeaders
deriving DecidableEq, Repr

/-- Trace of one `ServeHTTP` run. -/
structure TraceServe where
  outcome : Outcome
  w : RespWriter
  calls : List GetObjectInput
  reconInvoked : Bool
deriving Repr

/-- Model of `ServeHTTP` (s3proxy.go lines 235–265): non-GET requests delegate
immediately; otherwise the root template is resolved by the external
replacer (modelled by the `resolvedRoot` argument), `joinPath` builds the
full path (panicking on an empty URL path), and `GetHandler` runs; a nil
error means served, any error delegates to the next handler. -/
def serveHTTP (storage : GetObjectInput → S3Result) (bucket resolvedRoot : String)
    (req : Request) (w : RespWriter) : TraceServe :=
  if req.method ≠ "GET" then ⟨Outcome.delegated, w, [], false⟩
  else
    match joinPath resolvedRoot req.urlPath with
    | none => ⟨Outcome.panicked, w, [], false⟩
    | some fullPath =>
      let t := GetHandler storage bucket req.headers req.rawQuery w fullPath
      if t.isErr then ⟨Outcome.delegated, t.w, t.calls, t.reconInvoked⟩
      else ⟨Outcome.served, t.w, t.calls, t.reconInvoked⟩

/-! ## Lemmas about the `path.Clean` model -/

set_option maxRecDepth 4000 in
/-- Sanity anchor: the model's SHA-1 matches the standard test vector for
the empty message. -/
theorem sha1_test_empty :
    convertSha1 "" = "da39a3ee5e6b4b0d3255bfef95601890afd80709" := by decide

set_option maxRecDepth 4000 in
/-- Sanity anchor: the model's SHA-1 matches the standard test vector for
`"abc"`. -/
theorem sha1_test_abc :
    convertSha1 "abc" = "a9993e364706816aba3e25717850c26c9cd0d89d" := by decide

theorem splitSlash_ne_nil (l : List Char) : splitSlash l ≠ [] := by
  simp [splitSlash]

theorem splitSlash_nil : splitSlash [] = [[]] := rfl

theorem splitSlashA_append_slash (xs ys : List Char) :
    splitSlashA (xs ++ '/' :: ys) = ((splitSlashA xs).1, (splitSlashA xs).2 ++ splitSlash ys) := by
  induction xs with
  | nil => simp [splitSlashA, splitSlash]
  | cons c cs ih =>
    by_cases hc : c = '/'
    · simp [splitSlashA, ih, hc]
    · simp [splitSlashA, ih, hc]

theorem splitSlash_append_slash (xs ys : List Char) :
    splitSlash (xs ++ '/' :: ys) = splitSlash xs ++ splitSlash ys := by
  simp [splitSlash, splitSlashA_append_slash]

theorem splitSlash_cons_slash (l : List Char) : splitSlash ('/' :: l) = [] :: splitSlash l := by
  simp [splitSlash, splitSlashA]

theorem splitSlashA_no_slash (l : List Char) (h : '/' ∉ l) : splitSlashA l = (l, []) := by
  induction l with
  | nil => simp [splitSlashA]
  | cons c cs ih =>
    simp only [List.mem_cons, not_or] at h
    have hc : c ≠ '/' := fun hc => h.1 hc.symm
    simp [splitSlashA, ih h.2, hc]

theorem splitSlash_of_no_slash (l : List Char) (h : '/' ∉ l) : splitSlash l = [l] := by
  simp [splitSlash, splitSlashA_no_slash l h]

theorem splitSlash_no_slash (l : List Char) : ∀ e ∈ splitSlash l, '/' ∉ e := by
  induction l with
  | nil => simp [splitSlash, splitSlashA]
  | cons c cs ih =>
    by_cases hc : c = '/'
    · subst hc
      rw [splitSlash_cons_slash]
      intro e he
      rcases List.mem_cons.mp he with h1 | h1
      · subst h1; simp
      · exact ih e h1
    · intro e he
      have hd : splitSlash (c :: cs) = (c :: (splitSlashA cs).1) :: (splitSlashA cs).2 := by
        simp [splitSlash, splitSlashA, hc]
      rw [hd] at he
      rcases List.mem_cons.mp he with h1 | h1
      · subst h1
        intro hmem
        rcases List.mem_cons.mp hmem with h2 | h2
        · exact hc h2.symm
        · exact ih (splitSlashA cs).1 (by simp [splitSlash]) h2
      · exact ih e (by simp [splitSlash, h1])

theorem splitSlash_replicate_slash (k : Nat) (x : List Char) (hx : '/' ∉ x) :
    splitSlash (List.replicate k '/' ++ x) = List.replicate k [] ++ [x] := by
  induction k with
  | zero => simpa using splitSlash_of_no_slash x hx
  | succ n ih =>
    rw [List.replicate_succ, List.cons_append, splitSlash_cons_slash, ih, List.replicate_succ]
    simp

theorem joinSegs_cons_cons (e f : List Char) (rest : List (List Char)) :
    joinSegs (e :: f :: rest) = e ++ '/' :: joinSegs (f :: rest) := rfl

theorem joinSegs_append_single (L : List (List Char)) (x : List Char) (h : L ≠ []) :
    joinSegs (L ++ [x]) = joinSegs L ++ '/' :: x := by
  induction L with
  | nil => exact absurd rfl h
  | cons e rest ih =>
    cases rest with
    | nil => simp [joinSegs]
    | cons f rest' =>
      rw [List.cons_append, joinSegs_cons_cons]
      rw [show (f :: rest') ++ [x] = f :: (rest' ++ [x]) from rfl] at *
      rw [joinSegs_cons_cons, ih (by simp)]
      simp

theorem splitSlash_joinSegs (L : List (List Char)) (h : ∀ e ∈ L, e ≠ [] ∧ '/' ∉ e)
    (hL : L ≠ []) : splitSlash (joinSegs L) = L := by
  induction L with
  | nil => exact absurd rfl hL
  | cons e rest ih =>
    cases rest with
    | nil => exact splitSlash_of_no_slash e (h e (by simp)).2
    | cons f rest' =>
      rw [joinSegs_cons_cons, splitSlash_append_slash]
      rw [splitSlash_of_no_slash e (h e (by simp)).2]
      rw [ih (fun e' he' => h e' (by simp [he'])) (by simp)]
      simp

theorem joinSegs_ne_nil (e : List Char) (rest : List (List Char)) (he : e ≠ []) :
    joinSegs (e :: rest) ≠ [] := by
  cases rest with
  | nil => simpa [joinSegs]
  | cons f rest' => simp [joinSegs_cons_cons, he]

/-- A "real" path segment: non-empty, not `.`, not `..`, slash-free. -/
def realSeg (e : List Char) : Prop := e ≠ [] ∧ e ≠ ['.'] ∧ e ≠ dotdot ∧ '/' ∉ e

/-- Invariant of the `path.Clean` segment stack (most recent first): some
real segments on top of a run of `..`s, and no `..`s at all when rooted. -/
def CleanStack (rooted : Bool) (st : List (List Char)) : Prop :=
  ∃ names k, st = names ++ List.replicate k dotdot ∧ (∀ e ∈ names, realSeg e) ∧
    (rooted = true → k = 0)

theorem cleanStack_nil (rooted : Bool) : CleanStack rooted [] :=
  ⟨[], 0, by simp, by simp, fun _ => rfl⟩

theorem pushElem_empty (rooted : Bool) (st : List (List Char)) : pushElem rooted st [] = st := by
  simp [pushElem]

theorem pushElem_real (rooted : Bool) (st : List (List Char)) (e : List Char)
    (h1 : e ≠ []) (h2 : e ≠ ['.']) (h3 : e ≠ dotdot) : pushElem rooted st e = e :: st := by
  simp [pushElem, h1, h2, h3]

theorem cleanStack_push (rooted : Bool) (st : List (List Char)) (e : List Char)
    (hst : CleanStack rooted st) (he : '/' ∉ e) : CleanStack rooted (pushElem rooted st e) := by
  obtain ⟨names, k, hsplit, hnames, hk⟩ := hst
  by_cases h1 : e = [] ∨ e = ['.']
  · simpa [pushElem, h1] using ⟨names, k, hsplit, hnames, hk⟩
  · by_cases h2 : e = dotdot
    · subst h2
      cases st with
      | nil =>
        cases rooted with
        | false =>
          refine ⟨[], 1, ?_, by simp, by simp⟩
          simp [pushElem, h1]
        | true =>
          refine ⟨[], 0, ?_, by simp, fun _ => rfl⟩
          simp [pushElem, h1]
      | cons top rest =>
        by_cases htop : top = dotdot
        · subst htop
          have hnamesnil : names = [] := by
            cases names with
            | nil => rfl
            | cons n ns =>
              exfalso
              have hn : n = dotdot := by
                have h' := hsplit
                simp only [List.cons_append] at h'
                exact (List.cons.injEq _ _ _ _ ▸ h').1.symm
              exact (hnames n (by simp)).2.2.1 hn
          subst hnamesnil
          have hrooted : rooted = false := by
            cases hrk : rooted
            · rfl
            · exfalso
              have hz := hk hrk
              subst hz
              simp at hsplit
          subst hrooted
          simp only [List.nil_append] at hsplit
          refine ⟨[], k + 1, ?_, by simp, by simp⟩
          have hpush : pushElem false (dotdot :: rest) dotdot = dotdot :: dotdot :: rest := by
            simp [pushElem, h1]
          rw [hpush]
          simp only [List.nil_append, List.replicate_succ]
          rw [← hsplit]
        · have hpush : pushElem rooted (top :: rest) dotdot = rest := by
            simp [pushElem, h1, htop]
          rw [hpush]
          cases names with
          | nil =>
            exfalso
            simp only [List.nil_append] at hsplit
            cases k with
            | zero => simp at hsplit
            | succ k' =>
              rw [List.replicate_succ] at hsplit
              exact htop (List.cons.injEq _ _ _ _ ▸ hsplit).1
          | cons n ns =>
            simp only [List.cons_append] at hsplit
            refine ⟨ns, k, (List.cons.injEq _ _ _ _ ▸ hsplit).2, ?_, hk⟩
            exact fun e' he' => hnames e' (by simp [he'])
    · push_neg at h1
      rw [pushElem_real rooted st e h1.1 h1.2 h2]
      refine ⟨e :: names, k, by simp [hsplit], ?_, hk⟩
      intro e' he'
      rcases List.mem_cons.mp he' with h' | h'
      · subst h'; exact ⟨h1.1, h1.2, h2, he⟩
      · exact hnames e' h'

theorem cleanStack_foldl (rooted : Bool) (elems : List (List Char)) (st : List (List Char))
    (hst : CleanStack rooted st) (helems : ∀ e ∈ elems, '/' ∉ e) :
    CleanStack rooted (elems.foldl (pushElem rooted) st) := by
  induction elems generalizing st with
  | nil => simpa
  | cons e rest ih =>
    rw [List.foldl_cons]
    exact ih (pushElem rooted st e)
      (cleanStack_push rooted st e hst (helems e (by simp)))
      (fun e' he' => helems e' (by simp [he']))

theorem foldl_pushElem_replicate_nil (rooted : Bool) (m : Nat) (st : List (List Char)) :
    (List.replicate m ([] : List Char)).foldl (pushElem rooted) st = st := by
  induction m with
  | zero => rfl
  | succ n ih => rw [List.replicate_succ, List.foldl_cons, pushElem_empty]; exact ih

theorem foldl_pushElem_dotdots (k m : Nat) :
    (List.replicate k dotdot).foldl (pushElem false) (List.replicate m dotdot) =
      List.replicate (k + m) dotdot := by
  induction k generalizing m with
  | zero => simp
  | succ n ih =>
    rw [List.replicate_succ, List.foldl_cons]
    have hstep : pushElem false (List.replicate m dotdot) dotdot =
        List.replicate (m + 1) dotdot := by
      cases m with
      | zero => simp [pushElem, dotdot]
      | succ m' =>
        rw [List.replicate_succ]
        have : pushElem false (dotdot :: List.replicate m' dotdot) dotdot =
            dotdot :: dotdot :: List.replicate m' dotdot := by
          simp [pushElem, dotdot]
        rw [this, List.replicate_succ, List.replicate_succ]
    rw [hstep, ih (m + 1)]
    congr 1
    omega

theorem foldl_pushElem_reals (rooted : Bool) (L : List (List Char)) (st : List (List Char))
    (h : ∀ e ∈ L, realSeg e) : L.foldl (pushElem rooted) st = L.reverse ++ st := by
  induction L generalizing st with
  | nil => simp
  | cons e rest ih =>
    rw [List.foldl_cons]
    obtain ⟨h1, h2, h3, _⟩ := h e (by simp)
    rw [pushElem_real rooted st e h1 h2 h3, ih (e :: st) (fun e' he' => h e' (by simp [he']))]
    simp

theorem foldl_pushElem_refold (rooted : Bool) (st : List (List Char))
    (hst : CleanStack rooted st) : st.reverse.foldl (pushElem rooted) [] = st := by
  obtain ⟨names, k, hsplit, hnames, hk⟩ := hst
  subst hsplit
  rw [List.reverse_append, List.reverse_replicate, List.foldl_append]
  have hdd : (List.replicate k dotdot).foldl (pushElem rooted) [] =
      List.replicate k dotdot := by
    cases hr : rooted
    · simpa using foldl_pushElem_dotdots k 0
    · rw [hk hr]; rfl
  rw [hdd, foldl_pushElem_reals rooted names.reverse (List.replicate k dotdot)
    (fun e he => hnames e (by simpa using he))]
  simp

theorem renderStack_ne_nil (rooted : Bool) (st : List (List Char)) :
    renderStack rooted st ≠ [] := by
  unfold renderStack
  by_cases h : ((if rooted then ['/'] else []) ++ joinSegs st.reverse) = []
  · simp only [h, if_pos]
    simp
  · simp only [if_neg h]
    exact h

theorem cleanChars_ne_nil (s : List Char) : cleanChars s ≠ [] := by
  unfold cleanChars
  split
  · simp
  · exact renderStack_ne_nil _ _

theorem cleanStack_elem (rooted : Bool) (st : List (List Char)) (hst : CleanStack rooted st) :
    ∀ e ∈ st, e ≠ [] ∧ e ≠ ['.'] ∧ '/' ∉ e := by
  obtain ⟨names, k, hsplit, hnames, -⟩ := hst
  subst hsplit
  intro e he
  rcases List.mem_append.mp he with h | h
  · obtain ⟨h1, h2, -, h4⟩ := hnames e h
    exact ⟨h1, h2, h4⟩
  · have : e = dotdot := List.eq_of_mem_replicate h
    subst this
    refine ⟨by simp [dotdot], by simp [dotdot], by simp [dotdot]⟩

theorem cleanChars_dot_seg (x : List Char) (k : Nat) (hk : k ≠ 0) (hx1 : x ≠ [])
    (hx4 : '/' ∉ x) (hx2 : x ≠ ['.']) (hx3 : x ≠ dotdot) :
    cleanChars (['.'] ++ (List.replicate k '/' ++ x)) = x := by
  obtain ⟨k', rfl⟩ : ∃ k', k = k' + 1 := ⟨k - 1, by omega⟩
  have hform : (['.'] : List Char) ++ (List.replicate (k' + 1) '/' ++ x) =
      ['.'] ++ '/' :: (List.replicate k' '/' ++ x) := by
    rw [List.replicate_succ]
    simp
  rw [hform]
  have hne : (['.'] : List Char) ++ '/' :: (List.replicate k' '/' ++ x) ≠ [] := by simp
  unfold cleanChars
  rw [if_neg hne]
  have hroot : isRooted (['.'] ++ '/' :: (List.replicate k' '/' ++ x)) = false := by
    simp [isRooted]
  rw [hroot]
  rw [splitSlash_append_slash, splitSlash_of_no_slash ['.'] (by simp),
    splitSlash_replicate_slash k' x hx4]
  unfold cleanStackOf
  simp only [List.singleton_append]
  rw [List.foldl_cons]
  have hdot : pushElem false [] ['.'] = [] := by simp [pushElem]
  rw [hdot, List.foldl_append, foldl_pushElem_replicate_nil, List.foldl_cons,
    pushElem_real false [] x hx1 hx2 hx3, List.foldl_nil]
  unfold renderStack
  simp [joinSegs, hx1]

theorem cleanChars_slashes_seg (m : Nat) (x : List Char) (hm : m ≠ 0) (hx1 : x ≠ [])
    (hx4 : '/' ∉ x) (hx2 : x ≠ ['.']) (hx3 : x ≠ dotdot) :
    cleanChars (List.replicate m '/' ++ x) = '/' :: x := by
  obtain ⟨m', rfl⟩ : ∃ m', m = m' + 1 := ⟨m - 1, by omega⟩
  have hne : List.replicate (m' + 1) '/' ++ x ≠ [] := by simp
  unfold cleanChars
  rw [if_neg hne]
  have hroot : isRooted (List.replicate (m' + 1) '/' ++ x) = true := by
    rw [List.replicate_succ]
    simp [isRooted]
  rw [hroot, splitSlash_replicate_slash (m' + 1) x hx4]
  unfold cleanStackOf
  rw [List.foldl_append, foldl_pushElem_replicate_nil, List.foldl_cons,
    pushElem_real true [] x hx1 hx2 hx3, List.foldl_nil]
  unfold renderStack
  simp [joinSegs, hx1]

theorem cleanChars_append_seg (cs x : List Char) (k : Nat) (hk : k ≠ 0)
    (hx1 : x ≠ []) (hx2 : x ≠ ['.']) (hx3 : x ≠ dotdot) (hx4 : '/' ∉ x) :
    cleanChars (cleanChars cs ++ (List.replicate k '/' ++ x)) =
      (if cleanChars cs = ['.'] then x
       else if cleanChars cs = ['/'] then '/' :: x
       else cleanChars cs ++ '/' :: x) := by
  by_cases hcs : cs = []
  · subst hcs
    have h0 : cleanChars ([] : List Char) = ['.'] := rfl
    rw [h0, if_pos rfl]
    exact cleanChars_dot_seg x k hk hx1 hx4 hx2 hx3
  · have hclean : cleanChars cs =
        renderStack (isRooted cs) (cleanStackOf (isRooted cs) (splitSlash cs)) := by
      unfold cleanChars
      rw [if_neg hcs]
    have hst : CleanStack (isRooted cs) (cleanStackOf (isRooted cs) (splitSlash cs)) :=
      cleanStack_foldl _ _ [] (cleanStack_nil _) (splitSlash_no_slash cs)
    generalize hr : isRooted cs = r at hclean hst
    generalize hstdef : cleanStackOf r (splitSlash cs) = st at hclean hst
    cases st with
    | nil =>
      cases r with
      | false =>
        have h1 : renderStack false [] = ['.'] := rfl
        rw [h1] at hclean
        rw [hclean, if_pos rfl]
        exact cleanChars_dot_seg x k hk hx1 hx4 hx2 hx3
      | true =>
        have h1 : renderStack true [] = ['/'] := rfl
        rw [h1] at hclean
        rw [hclean, if_neg (by decide), if_pos rfl]
        have hshape : (['/'] : List Char) ++ (List.replicate k '/' ++ x) =
            List.replicate (k + 1) '/' ++ x := by
          rw [List.replicate_succ]
          simp
        rw [hshape]
        exact cleanChars_slashes_seg (k + 1) x (by omega) hx1 hx4 hx2 hx3
    | cons s₀ st' =>
      have hseg := cleanStack_elem r (s₀ :: st') hst
      obtain ⟨e₁, tail, hrev⟩ : ∃ e₁ tail, (s₀ :: st').reverse = e₁ :: tail := by
        cases hpr : (s₀ :: st').reverse with
        | nil => exact absurd (List.reverse_eq_nil_iff.mp hpr) (by simp)
        | cons a b => exact ⟨a, b, rfl⟩
      have he₁mem : e₁ ∈ s₀ :: st' := by
        rw [← List.mem_reverse, hrev]
        simp
      obtain ⟨he₁nil, he₁dot, he₁slash⟩ := hseg e₁ he₁mem
      have hjs_ne : joinSegs ((s₀ :: st').reverse) ≠ [] := by
        rw [hrev]
        exact joinSegs_ne_nil e₁ tail he₁nil
      have hsegrev : ∀ e ∈ (s₀ :: st').reverse, e ≠ [] ∧ '/' ∉ e := by
        intro e he
        have h' := hseg e (List.mem_reverse.mp he)
        exact ⟨h'.1, h'.2.2⟩
      have hsplit_js : splitSlash (joinSegs ((s₀ :: st').reverse)) = (s₀ :: st').reverse :=
        splitSlash_joinSegs _ hsegrev (by rw [hrev]; simp)
      have hrefold : ((s₀ :: st').reverse).foldl (pushElem r) [] = s₀ :: st' :=
        foldl_pushElem_refold r _ hst
      obtain ⟨k', rfl⟩ : ∃ k', k = k' + 1 := ⟨k - 1, by omega⟩
      have hfold : ((s₀ :: st').reverse ++ (List.replicate k' [] ++ [x])).foldl
          (pushElem r) [] = x :: s₀ :: st' := by
        rw [List.foldl_append, hrefold, List.foldl_append, foldl_pushElem_replicate_nil,
          List.foldl_cons, pushElem_real r (s₀ :: st') x hx1 hx2 hx3, List.foldl_nil]
      cases r with
      | true =>
        have hdot : ('/' : Char) :: joinSegs ((s₀ :: st').reverse) ≠ ['.'] := by
          intro h
          have h' := (List.cons.injEq _ _ _ _ ▸ h).1
          exact absurd h' (by decide)
        have hslash : ('/' : Char) :: joinSegs ((s₀ :: st').reverse) ≠ ['/'] := by
          intro h
          exact hjs_ne (List.cons.injEq _ _ _ _ ▸ h).2
        have hout : renderStack true (s₀ :: st') = '/' :: joinSegs ((s₀ :: st').reverse) := by
          simp only [renderStack]
          rw [if_neg (by simp)]
          simp
        have hrender2 : renderStack true (x :: s₀ :: st') =
            '/' :: (joinSegs ((s₀ :: st').reverse) ++ '/' :: x) := by
          simp only [renderStack]
          rw [List.reverse_cons, joinSegs_append_single _ x (by rw [hrev]; simp)]
          rw [if_neg (by simp)]
          simp
        rw [hclean, hout]
        rw [if_neg hdot, if_neg hslash]
        have hshape : ('/' :: joinSegs ((s₀ :: st').reverse)) ++
            (List.replicate (k' + 1) '/' ++ x) =
            '/' :: (joinSegs ((s₀ :: st').reverse) ++
              '/' :: (List.replicate k' '/' ++ x)) := by
          rw [List.replicate_succ]
          simp
        rw [hshape]
        have hne2 : ('/' :: (joinSegs ((s₀ :: st').reverse) ++
            '/' :: (List.replicate k' '/' ++ x))) ≠ [] := by simp
        unfold cleanChars
        rw [if_neg hne2]
        have hroot2 : isRooted ('/' :: (joinSegs ((s₀ :: st').reverse) ++
            '/' :: (List.replicate k' '/' ++ x))) = true := by
          simp [isRooted]
        rw [hroot2, splitSlash_cons_slash, splitSlash_append_slash, hsplit_js,
          splitSlash_replicate_slash k' x hx4]
        unfold cleanStackOf
        rw [List.foldl_cons, pushElem_empty, hfold, hrender2, List.cons_append]
      | false =>
        obtain ⟨c, e', hce⟩ : ∃ c e', e₁ = c :: e' := by
          cases e₁ with
          | nil => exact absurd rfl he₁nil
          | cons a b => exact ⟨a, b, rfl⟩
        have hc : c ≠ '/' := by
          intro hcc
          exact he₁slash (by rw [hce, hcc]; simp)
        obtain ⟨t1, ht1⟩ : ∃ t1, joinSegs ((s₀ :: st').reverse) = e₁ ++ t1 := by
          rw [hrev]
          cases tail with
          | nil => exact ⟨[], by simp [joinSegs]⟩
          | cons f r' => exact ⟨'/' :: joinSegs (f :: r'), joinSegs_cons_cons e₁ f r'⟩
        have hdot : joinSegs ((s₀ :: st').reverse) ≠ ['.'] := by
          intro h
          rw [ht1, hce] at h
          simp only [List.cons_append, List.cons.injEq, List.append_eq_nil] at h
          exact he₁dot (by rw [hce, h.1, h.2.1])
        have hslash : joinSegs ((s₀ :: st').reverse) ≠ ['/'] := by
          intro h
          rw [ht1, hce] at h
          simp only [List.cons_append, List.cons.injEq, List.append_eq_nil] at h
          exact hc h.1
        have hout : renderStack false (s₀ :: st') = joinSegs ((s₀ :: st').reverse) := by
          simp only [renderStack]
          rw [if_neg (by simpa using hjs_ne)]
          simp
        have hrender2 : renderStack false (x :: s₀ :: st') =
            joinSegs ((s₀ :: st').reverse) ++ '/' :: x := by
          simp only [renderStack]
          rw [List.reverse_cons, joinSegs_append_single _ x (by rw [hrev]; simp)]
          rw [if_neg (by simp [hjs_ne])]
          simp
        rw [hclean, hout]
        rw [if_neg hdot, if_neg hslash]
        have hshape : joinSegs ((s₀ :: st').reverse) ++ (List.replicate (k' + 1) '/' ++ x) =
            joinSegs ((s₀ :: st').reverse) ++ '/' :: (List.replicate k' '/' ++ x) := by
          rw [List.replicate_succ]
          simp
        rw [hshape]
        have hne2 : joinSegs ((s₀ :: st').reverse) ++
            '/' :: (List.replicate k' '/' ++ x) ≠ [] := by
          simp
        unfold cleanChars
        rw [if_neg hne2]
        have hroot2 : isRooted (joinSegs ((s₀ :: st').reverse) ++
            '/' :: (List.replicate k' '/' ++ x)) = false := by
          rw [ht1, hce]
          simp [isRooted, hc]
        rw [hroot2, splitSlash_append_slash, hsplit_js,
          splitSlash_replicate_slash k' x hx4]
        unfold cleanStackOf
        rw [hfold, hrender2]

/-! ## Properties of the SHA-1 digest string -/

theorem beBytes_length (n v : Nat) : (beBytes n v).length = n := by
  simp [beBytes]

theorem beBytes_lt (n v : Nat) : ∀ b ∈ beBytes n v, b < 256 := by
  intro b hb
  simp only [beBytes, List.mem_map, List.mem_range] at hb
  obtain ⟨i, -, rfl⟩ := hb
  exact Nat.mod_lt _ (by omega)

theorem sha1_length (msg : List Nat) : (sha1 msg).length = 20 := by
  simp [sha1, beBytes_length]

theorem sha1_lt (msg : List Nat) : ∀ b ∈ sha1 msg, b < 256 := by
  intro b hb
  simp only [sha1, List.mem_append] at hb
  rcases hb with ((((h | h) | h) | h) | h) <;> exact beBytes_lt _ _ b h

theorem hexDigit_mem (n : Nat) (h : n < 16) : hexDigit n ∈ "0123456789abcdef".data := by
  interval_cases n <;> decide

theorem byteHex_mem (b : Nat) (hb : b < 256) :
    ∀ c ∈ byteHex b, c ∈ "0123456789abcdef".data := by
  intro c hc
  simp only [byteHex, List.mem_cons, List.not_mem_nil, or_false] at hc
  rcases hc with rfl | rfl
  · exact hexDigit_mem _ (by omega)
  · exact hexDigit_mem _ (Nat.mod_lt _ (by omega))

theorem hexEncode_data_length (bs : List Nat) : ((bs.map byteHex).flatten).length = 2 * bs.length := by
  induction bs with
  | nil => simp
  | cons b rest ih =>
    simp only [List.map_cons, List.flatten_cons, List.length_append, ih, byteHex,
      List.length_cons, List.length_nil, List.length_map]
    omega

theorem convertSha1_length (q : String) : (convertSha1 q).length = 40 := by
  show ((sha1 (strBytes q)).map byteHex).flatten.length = 40
  rw [hexEncode_data_length, sha1_length]

theorem convertSha1_chars (q : String) :
    ∀ c ∈ (convertSha1 q).data, c ∈ "0123456789abcdef".data := by
  intro c hc
  have hc' : c ∈ ((sha1 (strBytes q)).map byteHex).flatten := hc
  rw [List.mem_flatten] at hc'
  obtain ⟨l, hl, hcl⟩ := hc'
  rw [List.mem_map] at hl
  obtain ⟨b, hb, rfl⟩ := hl
  exact byteHex_mem b (sha1_lt _ b hb) c hcl

theorem convertSha1_data_facts (q : String) :
    (convertSha1 q).data ≠ [] ∧ (convertSha1 q).data ≠ ['.'] ∧
      (convertSha1 q).data ≠ dotdot ∧ '/' ∉ (convertSha1 q).data := by
  have hlen : (convertSha1 q).data.length = 40 := convertSha1_length q
  refine ⟨?_, ?_, ?_, ?_⟩
  · intro h; rw [h] at hlen; simp at hlen
  · intro h; rw [h] at hlen; simp at hlen
  · intro h; rw [h] at hlen; simp [dotdot] at hlen
  · intro h
    exact absurd (convertSha1_chars q '/' h) (by decide)

/-! ## String-level helpers -/

theorem hasSuffix_iff (s pat : String) : hasSuffix s pat = true ↔ ∃ u, s.data = u ++ pat.data := by
  unfold hasSuffix
  rw [List.isSuffixOf_iff_suffix]
  constructor
  · rintro ⟨u, hu⟩
    exact ⟨u, hu.symm⟩
  · rintro ⟨u, hu⟩
    exact ⟨u, hu.symm⟩

theorem hasSuffix_append_slash (s : String) : hasSuffix (s ++ "/") "/" = true := by
  rw [hasSuffix_iff]
  exact ⟨s.data, by simp [String.data_append]⟩

theorem string_ne_empty_iff (s : String) : s ≠ "" ↔ s.data ≠ [] := by
  rw [not_iff_not]
  exact ⟨fun h => by simp [h], fun h => String.ext h⟩

theorem string_length_pos (s : String) (h : s ≠ "") : 0 < s.length := by
  have : s.data ≠ [] := (string_ne_empty_iff s).mp h
  exact List.length_pos.mpr this

theorem cleanPath_data (s : String) : (cleanPath s).data = cleanChars s.data := rfl

theorem cleanPath_ne_empty (s : String) : cleanPath s ≠ "" := by
  rw [string_ne_empty_iff, cleanPath_data]
  exact cleanChars_ne_nil s.data

theorem pathJoin_cons_ne (a : String) (rest : List String) (ha : a ≠ "") :
    pathJoin (a :: rest) = cleanPath (joinStrings "/" (a :: rest)) := by
  unfold pathJoin
  have hdw : (a :: rest).dropWhile (fun e => e == "") = a :: rest := by
    rw [List.dropWhile_cons]
    simp [ha]
  rw [hdw]

theorem pathJoin_empty_cons (b : String) (hb : b ≠ "") : pathJoin ["", b] = cleanPath b := by
  unfold pathJoin
  have hdw : (["", b]).dropWhile (fun e => e == "") = [b] := by
    rw [List.dropWhile_cons]
    simp only [beq_self_eq_true, if_true]
    rw [List.dropWhile_cons]
    simp [hb]
  rw [hdw]
  rfl

theorem pathJoin_two_eq_cleanPath (root urlPath : String) (h : urlPath ≠ "") :
    ∃ s, pathJoin [root, urlPath] = cleanPath s := by
  by_cases hr : root = ""
  · subst hr
    exact ⟨urlPath, pathJoin_empty_cons urlPath h⟩
  · exact ⟨joinStrings "/" [root, urlPath], pathJoin_cons_ne root [urlPath] hr⟩

/-! ## Lemmas about the dispatcher and response reconstruction -/

theorem or_step {P Q R : Prop} (h : P ∨ R) (f : P → Q ∨ R) : Q ∨ R := by
  rcases h with h | h
  · exact f h
  · exact Or.inr h

theorem joinPath_eq (root uriPath : String) (h : uriPath ≠ "") :
    joinPath root uriPath =
      some (if hasSuffix uriPath "/" = true ∧ pathJoin [root, uriPath] ≠ "/"
        then pathJoin [root, uriPath] ++ "/" else pathJoin [root, uriPath]) := by
  unfold joinPath
  rw [if_neg h]

theorem writeResponse_emptyObject (w : RespWriter) :
    writeResponseFromGetObject w emptyObject = (w.setHeader "X-Cache-S3" "hit", false) := rfl

theorem string_pos_ne (v : String) (h : 0 < v.length) : v ≠ "" := by
  intro hv
  rw [hv] at h
  exact absurd h (by decide)

theorem append_gmt_ne_empty (x : String) : x ++ " GMT" ≠ "" := by
  intro h
  have hl : (x ++ " GMT").length = 0 := by rw [h]; rfl
  rw [String.length_append] at hl
  have h4 : (" GMT" : String).length = 4 := rfl
  omega

theorem formatHTTPDate_ne_empty (t : GoTime) : formatHTTPDate t ≠ "" := by
  unfold formatHTTPDate
  exact append_gmt_ne_empty _

theorem setStr_mem_mono (w : RespWriter) (key : String) (vo : Option String)
    (p : String × String) (hp : p ∈ w.headerSets) : p ∈ (setStrHeader w key vo).headerSets := by
  cases vo with
  | none => exact hp
  | some v =>
    unfold setStrHeader
    dsimp only
    split
    · exact List.mem_append_left _ hp
    · exact hp

theorem setStr_mem_sound (w : RespWriter) (key : String) (vo : Option String)
    (p : String × String) (hp : p ∈ (setStrHeader w key vo).headerSets) :
    p ∈ w.headerSets ∨ p.2 ≠ "" := by
  cases vo with
  | none => exact Or.inl hp
  | some v =>
    unfold setStrHeader at hp
    dsimp only at hp
    by_cases hl : 0 < v.length
    · rw [if_pos hl] at hp
      rcases List.mem_append.mp hp with h | h
      · exact Or.inl h
      · right
        have hpv : p = (key, v) := by simpa using h
        rw [hpv]
        exact string_pos_ne v hl
    · rw [if_neg hl] at hp
      exact Or.inl hp

theorem setTime_mem_sound (w : RespWriter) (key : String) (vo : Option GoTime)
    (p : String × String) (hp : p ∈ (setTimeHeader w key vo).headerSets) :
    p ∈ w.headerSets ∨ p.2 ≠ "" := by
  cases vo with
  | none => exact Or.inl hp
  | some t =>
    unfold setTimeHeader at hp
    dsimp only at hp
    by_cases hz : t ≠ goZeroTime
    · rw [if_pos hz] at hp
      rcases List.mem_append.mp hp with h | h
      · exact Or.inl h
      · right
        have hpv : p = (key, formatHTTPDate t) := by simpa using h
        rw [hpv]
        exact formatHTTPDate_ne_empty t
    · rw [if_neg hz] at hp
      exact Or.inl hp

theorem foldl_setStr_mem_mono (md : List (String × Option String)) (w : RespWriter)
    (p : String × String) (hp : p ∈ w.headerSets) :
    p ∈ (md.foldl (fun w kv => setStrHeader w kv.1 kv.2) w).headerSets := by
  induction md generalizing w with
  | nil => exact hp
  | cons kv rest ih =>
    rw [List.foldl_cons]
    exact ih _ (setStr_mem_mono w kv.1 kv.2 p hp)

theorem foldl_setStr_mem (md : List (String × Option String)) (w : RespWriter)
    (k v : String) (hmem : (k, some v) ∈ md) (hv : v ≠ "") :
    (k, v) ∈ (md.foldl (fun w kv => setStrHeader w kv.1 kv.2) w).headerSets := by
  induction md generalizing w with
  | nil => exact absurd hmem (by simp)
  | cons kv rest ih =>
    rw [List.foldl_cons]
    rcases List.mem_cons.mp hmem with heq | hrest
    · apply foldl_setStr_mem_mono
      rw [← heq]
      unfold setStrHeader
      dsimp only
      rw [if_pos (string_length_pos v hv)]
      exact List.mem_append_right _ (by simp)
    · exact ih _ hrest

theorem foldl_setStr_mem_sound (md : List (String × Option String)) (w : RespWriter)
    (p : String × String)
    (hp : p ∈ (md.foldl (fun w kv => setStrHeader w kv.1 kv.2) w).headerSets) :
    p ∈ w.headerSets ∨ p.2 ≠ "" := by
  induction md generalizing w with
  | nil => exact Or.inl hp
  | cons kv rest ih =>
    rw [List.foldl_cons] at hp
    exact or_step (ih _ hp) (setStr_mem_sound w kv.1 kv.2 p)

theorem writeResponse_mem (w : RespWriter) (obj : GetObjectOutput) (k v : String)
    (hmem : (k, some v) ∈ obj.metadata) (hv : v ≠ "") :
    (k, v) ∈ (writeResponseFromGetObject w obj).1.headerSets := by
  unfold writeResponseFromGetObject
  cases hb : obj.body with
  | none =>
    dsimp only
    exact List.mem_append_left _ (foldl_setStr_mem _ _ k v hmem hv)
  | some bs =>
    dsimp only
    exact List.mem_append_left _ (foldl_setStr_mem _ _ k v hmem hv)

theorem writeResponse_sound (w : RespWriter) (obj : GetObjectOutput) (p : String × String)
    (hp : p ∈ (writeResponseFromGetObject w obj).1.headerSets) :
    p ∈ w.headerSets ∨ p.2 ≠ "" := by
  unfold writeResponseFromGetObject at hp
  have hp' : p ∈ ((obj.metadata.foldl (fun w kv => setStrHeader w kv.1 kv.2)
      (setTimeHeader (setStrHeader (setStrHeader (setStrHeader (setStrHeader (setStrHeader
        (setStrHeader (setStrHeader (setStrHeader w "Cache-Control" obj.cacheControl)
        "Content-Disposition" obj.contentDisposition) "Content-Encoding" obj.contentEncoding)
        "Content-Language" obj.contentLanguage) "Content-Range" obj.contentRange)
        "Content-Type" obj.contentType) "ETag" obj.etag) "Expires" obj.expires)
        "Last-Modified" obj.lastModified)).setHeader "X-Cache-S3" "hit").headerSets := by
    cases hb : obj.body with
    | none => rw [hb] at hp; exact hp
    | some bs => rw [hb] at hp; exact hp
  rcases List.mem_append.mp hp' with hq | hq
  · exact or_step (or_step (or_step (or_step (or_step (or_step (or_step (or_step (or_step
      (or_step (foldl_setStr_mem_sound _ _ p hq) (setTime_mem_sound _ _ _ p))
      (setStr_mem_sound _ _ _ p)) (setStr_mem_sound _ _ _ p)) (setStr_mem_sound _ _ _ p))
      (setStr_mem_sound _ _ _ p)) (setStr_mem_sound _ _ _ p)) (setStr_mem_sound _ _ _ p))
      (setStr_mem_sound _ _ _ p)) (setStr_mem_sound _ _ _ p)) (fun h => Or.inl h)
  · right
    have hpv : p = ("X-Cache-S3", "hit") := by simpa using hq
    rw [hpv]
    decide

theorem buildGetObjectInput_eq (bucket key : String) (h : ReqHeaders) :
    buildGetObjectInput bucket key h =
      { bucket := bucket, key := key,
        range := if h.range = "" then none else some h.range,
        ifMatch := if h.ifMatch = "" then none else some h.ifMatch,
        ifNoneMatch := if h.ifNoneMatch = "" then none else some h.ifNoneMatch,
        ifModifiedSince := if h.ifModifiedSince = "" then none
          else parseHTTPDate h.ifModifiedSince,
        ifUnmodifiedSince := if h.ifUnmodifiedSince = "" then none
          else parseHTTPDate h.ifUnmodifiedSince } := by
  unfold buildGetObjectInput
  by_cases h1 : h.range = "" <;> by_cases h2 : h.ifMatch = "" <;>
    by_cases h3 : h.ifNoneMatch = "" <;> by_cases h4 : h.ifModifiedSince = "" <;>
    by_cases h5 : h.ifUnmodifiedSince = "" <;>
    simp only [h1, h2, h3, h4, h5, if_true, if_false, ite_true, ite_false, ne_eq,
      not_true_eq_false, not_false_eq_true, reduceIte] <;>
    (first
      | rfl
      | (cases parseHTTPDate h.ifModifiedSince <;> cases parseHTTPDate h.ifUnmodifiedSince <;> rfl))

/-! ## Claim theorems -/

/-- C4: for every request whose method is not GET, the handler performs zero
storage calls, builds no key (the trace is produced even for the empty URL
path, which would otherwise panic in `joinPath`), and always delegates to
the next handler, leaving the response writer untouched. -/
theorem C4_non_get_delegates (storage : GetObjectInput → S3Result)
    (bucket resolvedRoot : String) (req : Request) (w : RespWriter)
    (h : req.method ≠ "GET") :
    serveHTTP storage bucket resolvedRoot req w = ⟨Outcome.delegated, w, [], false⟩ := by
  unfold serveHTTP
  rw [if_pos h]

theorem C4_witness :
    serveHTTP (fun _ => S3Result.plainError "boom") "bucket" "/root"
      { method := "POST", urlPath := "", rawQuery := "a=1", headers := {} } {} =
      ⟨Outcome.delegated, {}, [], false⟩ :=
  C4_non_get_delegates _ _ _ _ _ (by decide)

/-- C5: for every GET fetch whose storage backend reports a "no such key"
error, the dispatcher delegates to the next handler without writing any
response headers or status (the writer trace is unchanged), and the
response reconstructor is not invoked. -/
theorem C5_no_such_key_delegates (storage : GetObjectInput → S3Result)
    (bucket resolvedRoot msg : String) (req : Request) (w : RespWriter)
    (h1 : req.method = "GET") (h2 : req.urlPath ≠ "")
    (hs : ∀ oi, storage oi = S3Result.awsError "NoSuchKey" msg) :
    (serveHTTP storage bucket resolvedRoot req w).outcome = Outcome.delegated ∧
    (serveHTTP storage bucket resolvedRoot req w).w = w ∧
    (serveHTTP storage bucket resolvedRoot req w).reconInvoked = false := by
  unfold serveHTTP
  rw [if_neg (by simp [h1]), joinPath_eq resolvedRoot req.urlPath h2]
  unfold GetHandler getS3Object
  simp only [hs]
  simp

theorem C5_witness :
    ((serveHTTP (fun _ => S3Result.awsError "NoSuchKey" "no such key") "bucket" "/root"
      { method := "GET", urlPath := "/a", rawQuery := "", headers := {} } {}).outcome =
        Outcome.delegated ∧
    (serveHTTP (fun _ => S3Result.awsError "NoSuchKey" "no such key") "bucket" "/root"
      { method := "GET", urlPath := "/a", rawQuery := "", headers := {} } {}).w = {} ∧
    (serveHTTP (fun _ => S3Result.awsError "NoSuchKey" "no such key") "bucket" "/root"
      { method := "GET", urlPath := "/a", rawQuery := "", headers := {} } {}).reconInvoked =
        false) :=
  C5_no_such_key_delegates _ _ _ _
    { method := "GET", urlPath := "/a", rawQuery := "", headers := {} } {}
    rfl (by decide) (fun _ => rfl)

/-- C6: for every GET fetch whose storage call succeeds but reports a
content length of zero, the outcome is classified as a failure: the
dispatcher writes nothing (no 200), does not invoke the response
reconstructor, and delegates to the next handler. -/
theorem C6_zero_length_fails (storage : GetObjectInput → S3Result)
    (bucket resolvedRoot : String) (obj : GetObjectOutput) (req : Request) (w : RespWriter)
    (h1 : req.method = "GET") (h2 : req.urlPath ≠ "")
    (hs : ∀ oi, storage oi = S3Result.ok obj) (hcl : obj.contentLength = 0) :
    (serveHTTP storage bucket resolvedRoot req w).outcome = Outcome.delegated ∧
    (serveHTTP storage bucket resolvedRoot req w).w = w ∧
    (serveHTTP storage bucket resolvedRoot req w).reconInvoked = false := by
  unfold serveHTTP
  rw [if_neg (by simp [h1]), joinPath_eq resolvedRoot req.urlPath h2]
  unfold GetHandler getS3Object
  simp only [hs]
  simp [hcl]

theorem C6_witness :
    ((serveHTTP (fun _ => S3Result.ok { contentLength := 0, contentType := some "text/html" })
      "bucket" "/root" { method := "GET", urlPath := "/a", rawQuery := "", headers := {} }
      {}).outcome = Outcome.delegated ∧
    (serveHTTP (fun _ => S3Result.ok { contentLength := 0, contentType := some "text/html" })
      "bucket" "/root" { method := "GET", urlPath := "/a", rawQuery := "", headers := {} }
      {}).w = {} ∧
    (serveHTTP (fun _ => S3Result.ok { contentLength := 0, contentType := some "text/html" })
      "bucket" "/root" { method := "GET", urlPath := "/a", rawQuery := "", headers := {} }
      {}).reconInvoked = false) :=
  C6_zero_length_fails _ _ _ { contentLength := 0, contentType := some "text/html" }
    { method := "GET", urlPath := "/a", rawQuery := "", headers := {} } {}
    rfl (by decide) (fun _ => rfl) rfl

/-- C2 counterexample: on a storage-reported "not modified" outcome the
handler *does* invoke the response reconstructor (`writeResponseFromGetObject`
runs on the empty object returned together with the error), so the claim's
"does not invoke the Response Reconstructor" conjunct is false. -/
theorem C2_counterexample :
    (serveHTTP (fun _ => S3Result.awsError "NotModified" "not modified") "bucket" "/root"
      { method := "GET", urlPath := "/a", rawQuery := "", headers := {} } {}).reconInvoked =
      true := by
  rfl

/-- C2 (amended): on a storage-reported "not modified" outcome the handler
writes status 304 and serves the request; no body is written and no header
is copied from object metadata — but the response reconstructor *is*
invoked on the empty returned object, whose only effect is setting the
diagnostic `X-Cache-S3` marker header (after the status has already been
written). -/
theorem C2_not_modified_304 (storage : GetObjectInput → S3Result)
    (bucket resolvedRoot msg : String) (req : Request) (w : RespWriter)
    (h1 : req.method = "GET") (h2 : req.urlPath ≠ "")
    (hs : ∀ oi, storage oi = S3Result.awsError "NotModified" msg) :
    (serveHTTP storage bucket resolvedRoot req w).outcome = Outcome.served ∧
    (serveHTTP storage bucket resolvedRoot req w).w =
      (w.writeHeader 304).setHeader "X-Cache-S3" "hit" ∧
    (serveHTTP storage bucket resolvedRoot req w).reconInvoked = true := by
  unfold serveHTTP
  rw [if_neg (by simp [h1]), joinPath_eq resolvedRoot req.urlPath h2]
  unfold GetHandler getS3Object
  simp only [hs]
  simp [writeResponseFromGetObject, emptyObject, setStrHeader, setTimeHeader]

theorem C2_witness :
    ((serveHTTP (fun _ => S3Result.awsError "NotModified" "nm") "bucket" "/root"
      { method := "GET", urlPath := "/a", rawQuery := "", headers := {} } {}).outcome =
        Outcome.served ∧
    (serveHTTP (fun _ => S3Result.awsError "NotModified" "nm") "bucket" "/root"
      { method := "GET", urlPath := "/a", rawQuery := "", headers := {} } {}).w =
      (RespWriter.writeHeader {} 304).setHeader "X-Cache-S3" "hit" ∧
    (serveHTTP (fun _ => S3Result.awsError "NotModified" "nm") "bucket" "/root"
      { method := "GET", urlPath := "/a", rawQuery := "", headers := {} } {}).reconInvoked =
        true) :=
  C2_not_modified_304 _ _ _ _
    { method := "GET", urlPath := "/a", rawQuery := "", headers := {} } {}
    rfl (by decide) (fun _ => rfl)

/-- C3 counterexample: a served hit whose object metadata contains an entry
with the empty-string value: the entry is *not* copied into the response
headers (`setStrHeader` skips empty values), so the final header trace has
no `x-foo` entry at all, refuting "including entries whose value is the
empty string". -/
theorem C3_counterexample :
    (serveHTTP
      (fun _ => S3Result.ok
        { contentLength := 5, contentType := some "text/html",
          metadata := [("x-foo", some "")], body := some [104] })
      "bucket" "/root"
      { method := "GET", urlPath := "/a", rawQuery := "", headers := {} } {}).w.headerSets =
      [("Content-Type", "text/html"), ("X-Cache-S3", "hit")] := by
  rfl

/-- C3 (amended): for every hit, every metadata entry whose value is
present and non-empty is copied verbatim into the outgoing headers;
entries whose value is the empty string (or a nil pointer) are skipped —
every header the reconstructor emits beyond the caller's either has a
non-empty value. -/
theorem C3_metadata_copied (w : RespWriter) (obj : GetObjectOutput) (k v : String)
    (hmem : (k, some v) ∈ obj.metadata) (hv : v ≠ "") :
    (k, v) ∈ (writeResponseFromGetObject w obj).1.headerSets ∧
    ∀ p ∈ (writeResponseFromGetObject w obj).1.headerSets, p ∈ w.headerSets ∨ p.2 ≠ "" := by
  exact ⟨writeResponse_mem w obj k v hmem hv, fun p hp => writeResponse_sound w obj p hp⟩

theorem C3_witness :
    (("x-foo", "bar") ∈ (writeResponseFromGetObject {}
      { contentLength := 5, metadata := [("x-foo", some "bar")] }).1.headerSets ∧
    ∀ p ∈ (writeResponseFromGetObject {}
      { contentLength := 5, metadata := [("x-foo", some "bar")] }).1.headerSets,
      p ∈ ({} : RespWriter).headerSets ∨ p.2 ≠ "") :=
  C3_metadata_copied {} { contentLength := 5, metadata := [("x-foo", some "bar")] }
    "x-foo" "bar" (by decide) (by decide)

/-- C9: each of the five validator headers, when present and non-empty, is
forwarded into the storage request input; the two date headers are parsed
with the standard HTTP date format and silently omitted on parse failure
(the input, and hence the fetch, is identical to the one for an absent
header — no error is raised); absent or empty headers produce absent
fields. -/
theorem C9_conditional_translation (bucket key : String) (h : ReqHeaders) (s : String)
    (hs : parseHTTPDate s = none) :
    (buildGetObjectInput bucket key h).range = (if h.range = "" then none else some h.range) ∧
    (buildGetObjectInput bucket key h).ifMatch =
      (if h.ifMatch = "" then none else some h.ifMatch) ∧
    (buildGetObjectInput bucket key h).ifNoneMatch =
      (if h.ifNoneMatch = "" then none else some h.ifNoneMatch) ∧
    (buildGetObjectInput bucket key h).ifModifiedSince =
      (if h.ifModifiedSince = "" then none else parseHTTPDate h.ifModifiedSince) ∧
    (buildGetObjectInput bucket key h).ifUnmodifiedSince =
      (if h.ifUnmodifiedSince = "" then none else parseHTTPDate h.ifUnmodifiedSince) ∧
    buildGetObjectInput bucket key { h with ifModifiedSince := s } =
      buildGetObjectInput bucket key { h with ifModifiedSince := "" } ∧
    buildGetObjectInput bucket key { h with ifUnmodifiedSince := s } =
      buildGetObjectInput bucket key { h with ifUnmodifiedSince := "" } ∧
    ∀ (storage : GetObjectInput → S3Result) (w : RespWriter),
      getS3Object storage bucket key { h with ifModifiedSince := s } w =
        getS3Object storage bucket key { h with ifModifiedSince := "" } w := by
  have hswap : buildGetObjectInput bucket key { h with ifModifiedSince := s } =
      buildGetObjectInput bucket key { h with ifModifiedSince := "" } := by
    rw [buildGetObjectInput_eq, buildGetObjectInput_eq]
    by_cases hse : s = "" <;> simp [hse, hs]
  refine ⟨?_, ?_, ?_, ?_, ?_, hswap, ?_, ?_⟩
  · rw [buildGetObjectInput_eq]
  · rw [buildGetObjectInput_eq]
  · rw [buildGetObjectInput_eq]
  · rw [buildGetObjectInput_eq]
  · rw [buildGetObjectInput_eq]
  · rw [buildGetObjectInput_eq, buildGetObjectInput_eq]
    by_cases hse : s = "" <;> simp [hse, hs]
  · intro storage w
    unfold getS3Object
    rw [hswap]

theorem C9_witness :
    (buildGetObjectInput "b" "k"
      { range := "bytes=0-1", ifMatch := "", ifNoneMatch := "W",
        ifModifiedSince := "Mon, 02 Jan 2006 15:04:05 GMT",
        ifUnmodifiedSince := "zzz" }).range =
      (if ("bytes=0-1" : String) = "" then none else some "bytes=0-1") :=
  (C9_conditional_translation "b" "k"
    { range := "bytes=0-1", ifMatch := "", ifNoneMatch := "W",
      ifModifiedSince := "Mon, 02 Jan 2006 15:04:05 GMT", ifUnmodifiedSince := "zzz" }
    "not-a-date" (by decide)).1

/-- C10: `joinPath` is undefined (panics on the out-of-bounds slice
`uriPath[len(uriPath)-1:]`) exactly when `uriPath` is the empty string, and
total for non-empty `uriPath`; a GET request with an empty URL path reaches
that access in `ServeHTTP` (the model's `panicked` outcome). -/
theorem C10_joinPath_empty_panics (root p bucket rawQuery : String)
    (storage : GetObjectInput → S3Result) (h : ReqHeaders) (w : RespWriter) (hp : p ≠ "") :
    joinPath root "" = none ∧ (joinPath root p).isSome = true ∧
    (serveHTTP storage bucket root
      { method := "GET", urlPath := "", rawQuery := rawQuery, headers := h } w).outcome =
      Outcome.panicked := by
  refine ⟨rfl, ?_, ?_⟩
  · rw [joinPath_eq root p hp]
    rfl
  · unfold serveHTTP
    rw [if_neg (by simp)]
    rfl

theorem C10_witness :
    (joinPath "/root" "" = none ∧ (joinPath "/root" "/a").isSome = true ∧
    (serveHTTP (fun _ => S3Result.plainError "boom") "bucket" "/root"
      { method := "GET", urlPath := "", rawQuery := "", headers := {} } {}).outcome =
      Outcome.panicked) :=
  C10_joinPath_empty_panics "/root" "/a" "bucket" ""
    (fun _ => S3Result.plainError "boom") {} {} (by decide)

theorem joinPath_of_dir (root urlPath : String) (h1 : urlPath ≠ "")
    (h2 : hasSuffix urlPath "/" = true) :
    joinPath root urlPath =
      some (if pathJoin [root, urlPath] = "/" then "/"
        else pathJoin [root, urlPath] ++ "/") := by
  rw [joinPath_eq root urlPath h1]
  by_cases hp : pathJoin [root, urlPath] = "/"
  · simp [hp, h2]
  · simp [hp, h2]

theorem string_eq_iff_data (s : String) (l : List Char) : s = String.mk l ↔ s.data = l := by
  constructor
  · intro h
    rw [h]
  · intro h
    exact String.ext h

theorem cleanPath_append_seg_str (p x : String) (j : Nat) (hj : j ≠ 0) (s0 : String)
    (hp : p = cleanPath s0)
    (hx1 : x.data ≠ []) (hx2 : x.data ≠ ['.']) (hx3 : x.data ≠ dotdot) (hx4 : '/' ∉ x.data)
    (q : String) (hq : q.data = p.data ++ List.replicate j '/' ++ x.data) :
    cleanPath q = (if p = "." then x else if p = "/" then "/" ++ x else p ++ "/" ++ x) := by
  subst hp
  have hpdot : (cleanPath s0 = ".") ↔ cleanChars s0.data = ['.'] := by
    rw [String.ext_iff, cleanPath_data]
  have hpslash : (cleanPath s0 = "/") ↔ cleanChars s0.data = ['/'] := by
    rw [String.ext_iff, cleanPath_data]
  apply String.ext
  rw [cleanPath_data, hq, cleanPath_data, List.append_assoc]
  rw [cleanChars_append_seg s0.data x.data j hj hx1 hx2 hx3 hx4]
  by_cases h1 : cleanChars s0.data = ['.']
  · rw [if_pos h1, if_pos (hpdot.mpr h1)]
  · rw [if_neg h1, if_neg (fun h => h1 (hpdot.mp h))]
    by_cases h2 : cleanChars s0.data = ['/']
    · rw [if_pos h2, if_pos (hpslash.mpr h2)]
      rw [String.data_append]
      rfl
    · rw [if_neg h2, if_neg (fun h => h2 (hpslash.mp h))]
      rw [String.data_append, String.data_append, cleanPath_data, List.append_assoc]
      rfl

theorem index_html_facts :
    ("index.html" : String).data ≠ [] ∧ ("index.html" : String).data ≠ ['.'] ∧
      ("index.html" : String).data ≠ dotdot ∧ '/' ∉ ("index.html" : String).data := by
  refine ⟨by decide, by decide, by decide, by decide⟩

theorem append_slash_ne_empty (p : String) : p ++ "/" ≠ "" := by
  rw [string_ne_empty_iff, String.data_append]
  simp

theorem buildKey_eq (root urlPath q : String) (fp : String)
    (hfp : joinPath root urlPath = some fp) :
    buildKey root urlPath q = some (buildS3Key fp q) := by
  unfold buildKey
  rw [hfp]
  rfl

theorem buildS3Key_dir (fp q : String) (hsu : hasSuffix fp "/" = true) (hq : q ≠ "") :
    buildS3Key fp q = pathJoin [pathJoin [fp, "index.html"], "/", convertSha1 q] := by
  unfold buildS3Key
  dsimp only
  rw [if_pos hsu, if_pos (string_length_pos q hq)]

theorem buildS3Key_dir_noquery (fp : String) (hsu : hasSuffix fp "/" = true) :
    buildS3Key fp "" = pathJoin [fp, "index.html"] := by
  unfold buildS3Key
  dsimp only
  rw [if_pos hsu, if_neg (by decide)]

theorem buildS3Key_nodir (fp q : String) (hsu : hasSuffix fp "/" = false) (hq : q ≠ "") :
    buildS3Key fp q = pathJoin [fp, "/", convertSha1 q] := by
  unfold buildS3Key
  dsimp only
  rw [if_neg (show ¬(hasSuffix fp "/" = true) by simp [hsu]),
    if_pos (string_length_pos q hq)]

theorem pathJoin_digest (a q s1 : String) (ha : a = cleanPath s1) :
    pathJoin [a, "/", convertSha1 q] =
      (if a = "." then convertSha1 q else if a = "/" then "/" ++ convertSha1 q
       else a ++ "/" ++ convertSha1 q) := by
  obtain ⟨hd1, hd2, hd3, hd4⟩ := convertSha1_data_facts q
  rw [pathJoin_cons_ne a _ (by rw [ha]; exact cleanPath_ne_empty s1)]
  apply cleanPath_append_seg_str a (convertSha1 q) 3 (by decide) s1 ha hd1 hd2 hd3 hd4
  have hjs : joinStrings "/" [a, "/", convertSha1 q] =
      (a ++ "/") ++ (("/" ++ "/") ++ convertSha1 q) := rfl
  rw [hjs, String.data_append, String.data_append, String.data_append, String.data_append]
  simp only [List.append_assoc]
  rfl

set_option maxRecDepth 8000 in
/-- C1 counterexample: for root `/site`, urlPath `/images/`, rawQuery `a=1`
the key contains an `index.html` segment before the SHA-1 segment (the code
appends `index.html` first), so it is not `join(root, urlPath)` joined with
the digest as the claim states. -/
theorem C1_counterexample :
    buildKey "/site" "/images/" "a=1" =
      some ("/site/images/index.html/" ++ convertSha1 "a=1") ∧
    buildKey "/site" "/images/" "a=1" ≠
      (joinPath "/site" "/images/").map (fun fp => pathJoin [fp, "/", convertSha1 "a=1"]) := by
  constructor
  · decide
  · decide

/-- C1 (amended): for every trailing-slash request with a non-empty raw
query, `GetHandler` first appends `index.html` (because the joined path
ends with a separator) and only then appends the SHA-1 segment of the raw
query under it: the key is
`pathJoin [pathJoin [fullPath, "index.html"], "/", sha1hex(rawQuery)]`, so
it contains an `index.html` segment. -/
theorem C1_index_before_hash (root urlPath q : String) (h1 : urlPath ≠ "")
    (h2 : hasSuffix urlPath "/" = true) (hq : q ≠ "") :
    ∃ fp, joinPath root urlPath = some fp ∧ hasSuffix fp "/" = true ∧
      buildKey root urlPath q =
        some (pathJoin [pathJoin [fp, "index.html"], "/", convertSha1 q]) := by
  have hjp := joinPath_of_dir root urlPath h1 h2
  by_cases hp : pathJoin [root, urlPath] = "/"
  · rw [if_pos hp] at hjp
    refine ⟨"/", hjp, by decide, ?_⟩
    rw [buildKey_eq root urlPath q "/" hjp, buildS3Key_dir "/" q (by decide) hq]
  · rw [if_neg hp] at hjp
    refine ⟨pathJoin [root, urlPath] ++ "/", hjp, hasSuffix_append_slash _, ?_⟩
    rw [buildKey_eq root urlPath q _ hjp,
      buildS3Key_dir _ q (hasSuffix_append_slash _) hq]

theorem C1_witness :
    ∃ fp, joinPath "/site" "/images/" = some fp ∧ hasSuffix fp "/" = true ∧
      buildKey "/site" "/images/" "a=1" =
        some (pathJoin [pathJoin [fp, "index.html"], "/", convertSha1 "a=1"]) :=
  C1_index_before_hash "/site" "/images/" "a=1" (by decide) (by decide) (by decide)

/-- C7 counterexample: for root `.` and urlPath `/` (a non-empty urlPath
ending in the separator) with empty rawQuery, the joined path cleans to
`./`, so the key is exactly `index.html`, which does not end in
`/index.html`. -/
theorem C7_counterexample :
    buildKey "." "/" "" = some "index.html" ∧
    hasSuffix "index.html" "/index.html" = false := by
  constructor
  · decide
  · decide

/-- C7 (amended): for every non-empty urlPath ending in `/`, `joinPath`
restores the trailing separator (`fp = pathJoin ++ "/"`, or exactly `/`
when the join normalizes to `/`), so `fp` always ends in `/`; with empty
rawQuery the default-document rule yields a key ending in `/index.html`,
except when the joined path normalizes to the relative `.`, where the key
is exactly `index.html`; root `/site` with urlPath `/images/` yields
`/site/images/index.html`. -/
theorem C7_trailing_slash (root urlPath : String) (h1 : urlPath ≠ "")
    (h2 : hasSuffix urlPath "/" = true) :
    (∃ fp, joinPath root urlPath = some fp ∧
      (pathJoin [root, urlPath] = "/" → fp = "/") ∧
      (pathJoin [root, urlPath] ≠ "/" → fp = pathJoin [root, urlPath] ++ "/") ∧
      hasSuffix fp "/" = true) ∧
    (∃ k, buildKey root urlPath "" = some k ∧
      (pathJoin [root, urlPath] = "." → k = "index.html") ∧
      (pathJoin [root, urlPath] ≠ "." → hasSuffix k "/index.html" = true)) ∧
    buildKey "/site" "/images/" "" = some "/site/images/index.html" := by
  have hjp := joinPath_of_dir root urlPath h1 h2
  obtain ⟨s0, hs0⟩ := pathJoin_two_eq_cleanPath root urlPath h1
  refine ⟨?_, ?_, by decide⟩
  · by_cases hp : pathJoin [root, urlPath] = "/"
    · rw [if_pos hp] at hjp
      exact ⟨"/", hjp, fun _ => rfl, fun hne => absurd hp hne, by decide⟩
    · rw [if_neg hp] at hjp
      exact ⟨_, hjp, fun h => absurd h hp, fun _ => rfl, hasSuffix_append_slash _⟩
  · by_cases hp : pathJoin [root, urlPath] = "/"
    · rw [if_pos hp] at hjp
      refine ⟨"/index.html", ?_, ?_, ?_⟩
      · rw [buildKey_eq root urlPath "" "/" hjp, buildS3Key_dir_noquery "/" (by decide)]
        decide
      · intro hdot
        exact absurd (hp.symm.trans hdot) (by decide)
      · intro _
        decide
    · rw [if_neg hp] at hjp
      have hk : pathJoin [pathJoin [root, urlPath] ++ "/", "index.html"] =
          (if pathJoin [root, urlPath] = "." then "index.html"
           else if pathJoin [root, urlPath] = "/" then "/" ++ "index.html"
           else pathJoin [root, urlPath] ++ "/" ++ "index.html") := by
        rw [pathJoin_cons_ne _ _ (append_slash_ne_empty _)]
        apply cleanPath_append_seg_str (pathJoin [root, urlPath]) "index.html" 2 (by decide)
          s0 hs0 index_html_facts.1 index_html_facts.2.1 index_html_facts.2.2.1
          index_html_facts.2.2.2
        have hjs : joinStrings "/" [pathJoin [root, urlPath] ++ "/", "index.html"] =
            ((pathJoin [root, urlPath] ++ "/") ++ "/") ++ "index.html" := rfl
        rw [hjs, String.data_append, String.data_append, String.data_append]
        simp only [List.append_assoc]
        rfl
      by_cases hdot : pathJoin [root, urlPath] = "."
      · refine ⟨"index.html", ?_, fun _ => rfl, fun hne => absurd hdot hne⟩
        rw [buildKey_eq root urlPath "" _ hjp,
          buildS3Key_dir_noquery _ (hasSuffix_append_slash _), hk, if_pos hdot]
      · refine ⟨pathJoin [root, urlPath] ++ "/" ++ "index.html", ?_,
          fun hd => absurd hd hdot, fun _ => ?_⟩
        · rw [buildKey_eq root urlPath "" _ hjp,
            buildS3Key_dir_noquery _ (hasSuffix_append_slash _), hk, if_neg hdot, if_neg hp]
        · rw [hasSuffix_iff]
          refine ⟨(pathJoin [root, urlPath]).data, ?_⟩
          rw [String.data_append, String.data_append, List.append_assoc]
          rfl

theorem C7_witness :
    ((∃ fp, joinPath "/site" "/images/" = some fp ∧
      (pathJoin ["/site", "/images/"] = "/" → fp = "/") ∧
      (pathJoin ["/site", "/images/"] ≠ "/" → fp = pathJoin ["/site", "/images/"] ++ "/") ∧
      hasSuffix fp "/" = true) ∧
    (∃ k, buildKey "/site" "/images/" "" = some k ∧
      (pathJoin ["/site", "/images/"] = "." → k = "index.html") ∧
      (pathJoin ["/site", "/images/"] ≠ "." → hasSuffix k "/index.html" = true)) ∧
    buildKey "/site" "/images/" "" = some "/site/images/index.html") :=
  C7_trailing_slash "/site" "/images/" (by decide) (by decide)

/-- C8: for every non-empty rawQuery (and any non-empty urlPath), the SHA-1
segment is a lowercase 40-character hexadecimal string determined only by
the query bytes, and the built key either ends in `/` + digest or is the
digest itself; for root `/site`, urlPath `/page` the key is
`/site/page/` + sha1hex(rawQuery). -/
theorem C8_query_hash (root urlPath q : String) (h1 : urlPath ≠ "") (hq : q ≠ "") :
    (convertSha1 q).length = 40 ∧
    (∀ c ∈ (convertSha1 q).data, c ∈ "0123456789abcdef".data) ∧
    (∀ p, strBytes p = strBytes q → convertSha1 p = convertSha1 q) ∧
    (∃ key, buildKey root urlPath q = some key ∧
      (key = convertSha1 q ∨ hasSuffix key ("/" ++ convertSha1 q) = true)) ∧
    buildKey "/site" "/page" q = some ("/site/page/" ++ convertSha1 q) := by
  have hmain : ∀ a s1, a = cleanPath s1 →
      (pathJoin [a, "/", convertSha1 q] = convertSha1 q ∨
        hasSuffix (pathJoin [a, "/", convertSha1 q]) ("/" ++ convertSha1 q) = true) := by
    intro a s1 ha
    rw [pathJoin_digest a q s1 ha]
    by_cases had : a = "."
    · rw [if_pos had]
      exact Or.inl rfl
    · rw [if_neg had]
      by_cases has : a = "/"
      · rw [if_pos has]
        right
        rw [hasSuffix_iff]
        exact ⟨[], by simp⟩
      · rw [if_neg has]
        right
        rw [hasSuffix_iff]
        refine ⟨a.data, ?_⟩
        rw [String.data_append, String.data_append, String.data_append, List.append_assoc]
  refine ⟨convertSha1_length q, convertSha1_chars q, ?_, ?_, ?_⟩
  · intro p hp
    unfold convertSha1
    rw [hp]
  · obtain ⟨s0, hs0⟩ := pathJoin_two_eq_cleanPath root urlPath h1
    have hjp := joinPath_eq root urlPath h1
    by_cases hcond : hasSuffix urlPath "/" = true ∧ pathJoin [root, urlPath] ≠ "/"
    · rw [if_pos hcond] at hjp
      obtain ⟨s1, hs1⟩ :=
        pathJoin_two_eq_cleanPath (pathJoin [root, urlPath] ++ "/") "index.html" (by decide)
      refine ⟨_, ?_, hmain _ s1 hs1⟩
      rw [buildKey_eq root urlPath q _ hjp,
        buildS3Key_dir _ q (hasSuffix_append_slash _) hq]
    · rw [if_neg hcond] at hjp
      by_cases hsu : hasSuffix (pathJoin [root, urlPath]) "/" = true
      · obtain ⟨s1, hs1⟩ :=
          pathJoin_two_eq_cleanPath (pathJoin [root, urlPath]) "index.html" (by decide)
        refine ⟨_, ?_, hmain _ s1 hs1⟩
        rw [buildKey_eq root urlPath q _ hjp, buildS3Key_dir _ q hsu hq]
      · refine ⟨_, ?_, hmain _ s0 hs0⟩
        have hsu' : hasSuffix (pathJoin [root, urlPath]) "/" = false := by
          revert hsu
          cases hasSuffix (pathJoin [root, urlPath]) "/" <;> simp
        rw [buildKey_eq root urlPath q _ hjp, buildS3Key_nodir _ q hsu' hq]
  · have hjp2 : joinPath "/site" "/page" = some "/site/page" := by decide
    rw [buildKey_eq "/site" "/page" q _ hjp2, buildS3Key_nodir _ q (by decide) hq]
    rw [pathJoin_digest "/site/page" q "/site/page" (by decide)]
    rw [if_neg (by decide), if_neg (by decide)]
    have happ : ("/site/page" ++ "/" : String) = "/site/page/" := rfl
    rw [happ]

theorem C8_witness :
    buildKey "/site" "/page" "a=1" = some ("/site/page/" ++ convertSha1 "a=1") :=
  (C8_query_hash "/site" "/page" "a=1" (by decide) (by decide)).2.2.2.2
